import Mathlib

/-!
# Verification of the gtnh-calc planner frontend against its specification

This file gives a shallow embedding, in Lean, of the computational parts of
the gtnh-calc repository (frontend App component, `src/unnamed/part_004`) that
the specification describes: voltage-tier lookup and overclock-tier counting,
the overclocked effective-duration iteration, per-machine output rates,
machine-count clamping and suggestion, commodity identity keys and their
parsing, recipe-energy ordering, the utilization diagnostic, and the graph
request assembled by `runGraph`.

JavaScript numbers are modelled as rationals or integers where the code
floors them; strings that are only compared for equality are `String`, while
strings that the code slices and scans are lists of characters (`JStr`).
Record objects are modelled as association lists with unique keys (first
match wins on lookup, matching JavaScript object semantics for objects built
without duplicate keys).

The backend engine (DemandResolver / RateBalancer) is not part of the
repository sources; where a claim depends on it, the relevant quantity is
modelled from the specification text and marked as such in its doc comment.
-/

namespace GTNHCalc

/-- Character-list model of a JavaScript string that the code slices or
scans character by character. -/
abbrev JStr := List Char

/-- Voltage tier names, from the constant `TIERS` at the top of the frontend
source. -/
def TIERS : List String :=
  ["ULV", "LV", "MV", "HV", "EV", "IV", "LuV", "ZPM", "UV", "UHV"]

/-- From the source: `tierIndex = (tier?) => (tier ? TIERS.indexOf(tier) : -1)`.
An absent or empty tier string is falsy and yields `-1`; otherwise the result
is the index in `TIERS`, `-1` when the name is not listed. -/
def tierIndex (tier : Option String) : Int :=
  match tier with
  | none => -1
  | some s =>
    if s = "" then -1
    else
      match TIERS.findIdx? (· == s) with
      | some i => (i : Int)
      | none => -1

/-- From the source: `getOverclockTiers(minTier?, selectedTier?)` returns 0
when either tier index is negative, else `Math.max(0, selectedIndex - minIndex)`. -/
def getOverclockTiers (minTier selectedTier : Option String) : Int :=
  let minIndex := tierIndex minTier
  let selectedIndex := tierIndex selectedTier
  if minIndex < 0 ∨ selectedIndex < 0 then 0
  else max 0 (selectedIndex - minIndex)

/-- One overclock step from the source loop in `getOutputRateFromMachines`:
`duration = Math.max(1, Math.floor(duration / 2))`. On a natural number the
floor of the halved value is natural division by 2. -/
def halveStep (d : Nat) : Nat := max 1 (d / 2)

/-- Initial duration from the source: `Math.max(1, Math.floor(baseDuration))`. -/
def startDuration (base : ℚ) : Nat := (max 1 ⌊base⌋).toNat

/-- Effective duration in ticks after the given number of overclock halving
steps, exactly as iterated by the source loop. -/
def effectiveDurationTicks (base : ℚ) (overclocks : Nat) : Nat :=
  halveStep^[overclocks] (startDuration base)

/-- Item entry of a recipe. The TypeScript declaration lists `item_id`,
`meta`, `count`; runtime payloads additionally carry an optional `chance`
for probabilistic outputs (read when rendering output lists). The
display-only `name` field is omitted. -/
structure RecipeIOItem where
  item_id : JStr
  meta : ℚ
  count : ℚ
  chance : Option ℚ := none
  deriving DecidableEq

/-- Fluid entry of a recipe; same conventions as `RecipeIOItem`. -/
structure RecipeIOFluid where
  fluid_id : JStr
  mb : ℚ
  chance : Option ℚ := none
  deriving DecidableEq

/-- The `RecipeOption` record of the frontend, restricted to the fields the
embedded computations read. `duration_ticks` and `eut` are required in the
TypeScript type, so the defensive `?? base_duration_ticks ?? 0` fallback of
the source cannot fire and is not represented. -/
structure RecipeOption where
  rid : String
  machine_id : String := ""
  duration_ticks : ℚ
  eut : ℚ
  min_tier : Option String := none
  item_inputs : Option (List RecipeIOItem) := none
  fluid_inputs : Option (List RecipeIOFluid) := none
  item_outputs : Option (List RecipeIOItem) := none
  fluid_outputs : Option (List RecipeIOFluid) := none
  deriving DecidableEq

/-- Commodity kind of a target. -/
inductive TKind
  | item
  | fluid
  deriving DecidableEq

/-- The `Target` record of the frontend (display-only `name` omitted). -/
structure Target where
  type : TKind
  id : JStr
  meta : ℚ
  deriving DecidableEq

/-- From the source: `getRecipeEnergy = (recipe) => recipe.duration_ticks * recipe.eut`. -/
def getRecipeEnergy (recipe : RecipeOption) : ℚ :=
  recipe.duration_ticks * recipe.eut

/-- The order induced by the comparator of the `visibleRecipes` sort. -/
def energyLE (a b : RecipeOption) : Prop :=
  getRecipeEnergy a ≤ getRecipeEnergy b

instance : DecidableRel energyLE := fun a b =>
  inferInstanceAs (Decidable (getRecipeEnergy a ≤ getRecipeEnergy b))

instance : IsTotal RecipeOption energyLE :=
  ⟨fun _ _ => le_total _ _⟩

instance : IsTrans RecipeOption energyLE :=
  ⟨fun _ _ _ => le_trans⟩

/-- The sort stage of `visibleRecipes` in the source:
`.sort((a, b) => getRecipeEnergy(a) - getRecipeEnergy(b))`. Array sort with
a comparator is required to be stable (ECMAScript 2019), so it is modelled
as a stable insertion sort with respect to the energy order: ties keep
their input order. -/
def sortRecipesByEnergy (l : List RecipeOption) : List RecipeOption :=
  l.insertionSort energyLE

/-- A recipe with rid "b", listed first in the tie counterexample. -/
def recipeTieB : RecipeOption :=
  { rid := "b", duration_ticks := 1, eut := 1 }

/-- A recipe with rid "a", equal energy to `recipeTieB`. -/
def recipeTieA : RecipeOption :=
  { rid := "a", duration_ticks := 1, eut := 1 }

/-- From the source of `getOutputRateFromMachines`: the output entry of the
selected recipe matching the demanded target, reduced to its per-cycle
amount (`count` for items, `mb` for fluids). Item matching compares id and
meta; fluid matching compares id only. A missing output list behaves like an
empty one (optional chaining). -/
def findMatchingOutput (outputTarget : Target) (recipe : RecipeOption) : Option ℚ :=
  match outputTarget.type with
  | TKind.item =>
    ((recipe.item_outputs.getD []).find? fun it =>
      it.item_id == outputTarget.id && it.meta == outputTarget.meta).map (fun it => it.count)
  | TKind.fluid =>
    ((recipe.fluid_outputs.getD []).find? fun fl =>
      fl.fluid_id == outputTarget.id).map (fun fl => fl.mb)

/-- From the source: the loop bound `Math.max(0, recipeOverclockTiers[rid] ?? 0)`.
A `for (let i = 0; i < overclocks; i += 1)` loop runs ceiling-many iterations
for a fractional bound, hence the ceiling; the app only stores integral
values. -/
def overclockCount (recipeOverclockTiers : List (String × ℚ)) (rid : String) : Nat :=
  (max 0 ⌈(recipeOverclockTiers.lookup rid).getD 0⌉).toNat

/-- From the source:
`clampWholeNumber = (value, min) => Math.max(min, Math.floor(value))`.
Non-finite inputs (mapped to `min` by the source guard) cannot arise in the
rational model. -/
def clampWholeNumber (value : ℚ) (min : Int) : Int := max min ⌊value⌋

/-- From the source: `getOutputRateFromMachines` computes the total output
rate per second in machines mode: per-cycle amount of the matching output
entry, divided by the overclocked duration in ticks, times 20 ticks per
second, times the machine count clamped to at least 1. The guard
`!perCycle || perCycle <= 0` is the test `perCycle ≤ 0` on rationals. -/
def getOutputRateFromMachines (outputTarget : Option Target)
    (selectedRecipe : Option RecipeOption)
    (recipeOverclockTiers : List (String × ℚ)) (outputMachineCount : ℚ) : Option ℚ :=
  match outputTarget, selectedRecipe with
  | some t, some r =>
    match findMatchingOutput t r with
    | none => none
    | some perCycle =>
      if perCycle ≤ 0 then none
      else
        let duration := effectiveDurationTicks r.duration_ticks
          (overclockCount recipeOverclockTiers r.rid)
        let perMachineRate := perCycle / (duration : ℚ) * 20
        let machineCount := clampWholeNumber outputMachineCount 1
        some (perMachineRate * (machineCount : ℚ))
  | _, _ => none

/-- Modelled from the spec: DemandResolver step 4 of the absent backend
engine computes `machines_demand = R / per_machine_rate`. -/
def machinesDemand (demandedRate perMachineRate : ℚ) : ℚ :=
  demandedRate / perMachineRate

/-- Modelled from the spec: the RateBalancer of the absent backend engine
sets `machines_required = ceil(machines_demand)` when no manual override
fixes the count. -/
def machinesRequired (demand : ℚ) : Int := ⌈demand⌉

/-- From the source effect suggesting machine-count overrides:
`Math.max(0, Math.ceil(node.machines_demand))`, applied to recipe nodes
without a manual count. -/
def suggestedMachineCount (demand : ℚ) : Int := max 0 ⌈demand⌉

/-- Scenario A recipe of the spec: 100 ticks, one item x per cycle, LV. -/
def scenarioRecipe : RecipeOption :=
  { rid := "scenario-a", duration_ticks := 100, eut := 32, min_tier := some "LV",
    item_outputs := some [{ item_id := "x".toList, meta := 0, count := 1 }] }

/-- Scenario A demanded target: item x. -/
def scenarioTarget : Target := { type := TKind.item, id := "x".toList, meta := 0 }

/-- Probabilistic output entry used by the chance counterexample. -/
def chanceEntry : RecipeIOItem :=
  { item_id := "x".toList, meta := 0, count := 1, chance := some (1 / 2) }

/-- The same recipe with a probabilistic output entry (chance one half). -/
def chanceRecipe : RecipeOption :=
  { rid := "r-chance", duration_ticks := 100, eut := 32,
    item_outputs := some [chanceEntry] }

/-- The rate rule as worded by the claim (refinement reference, not from the
source): per-cycle amount over effective duration in seconds, scaled by the
chance of the entry when present. -/
def specChanceScaledRate (perCycle : ℚ) (chance : Option ℚ) (durationTicks : Nat) : ℚ :=
  perCycle / ((durationTicks : ℚ) / 20) * chance.getD 1

/-- Decimal digit character for a digit value below ten. -/
def digitChar (d : Nat) : Char := Char.ofNat (48 + d)

/-- Decimal digit test. -/
def isDigitChar (c : Char) : Bool := 48 ≤ c.toNat && c.toNat ≤ 57

/-- Whitespace trimmed by JavaScript Number, ASCII subset: space, tab,
line feed, carriage return (exotic Unicode whitespace is outside the scope
of this model). -/
def isWsChar (c : Char) : Bool := c == ' ' || c == '\t' || c == '\n' || c == '\r'

/-- Value of a run of decimal digit characters read left to right. -/
def digitsToNat (l : JStr) : Nat :=
  l.foldl (fun n c => n * 10 + (c.toNat - 48)) 0

/-- Decimal numeral of a natural number: the model of JavaScript number
stringification for nonnegative integers. -/
def natToChars (n : Nat) : JStr :=
  if _h : n < 10 then [digitChar n]
  else natToChars (n / 10) ++ [digitChar (n % 10)]
decreasing_by exact Nat.div_lt_self (by omega) (by omega)

/-- Decimal numeral padded with leading zeros to the given width. -/
def natToCharsPadded (k n : Nat) : JStr :=
  List.replicate (k - (natToChars n).length) '0' ++ natToChars n

/-- Least exponent (at most d) such that d divides 10 to it, when one
exists: the number of fraction digits needed for denominator d. -/
def decExpOf (d : Nat) : Option Nat :=
  (List.range (d + 1)).find? fun k => decide (d ∣ 10 ^ k)

/-- Decimal notation of a nonnegative rational with a terminating decimal
expansion: integer part, then a dot and exactly the needed fraction
digits. This is JavaScript number stringification under the
exact-rational idealization of floats (every finite float value is such a
rational). Values JavaScript would render in exponent notation are still
printed plainly - the same numeric value - and denominators with no
terminating expansion (unreachable from float values) fall back to the
integer part. -/
def ratAbsToChars (q : ℚ) : JStr :=
  if q.den = 1 then natToChars q.num.toNat
  else
    match decExpOf q.den with
    | some k =>
      natToChars (q.num.toNat / q.den) ++
        '.' :: natToCharsPadded k (q.num.toNat * 10 ^ k / q.den % 10 ^ k)
    | none => natToChars (q.num.toNat / q.den)

/-- Signed decimal notation: the model of interpolating a number with a
template literal in the key builder. -/
def ratToChars (q : ℚ) : JStr :=
  if q < 0 then '-' :: ratAbsToChars (-q) else ratAbsToChars q

/-- Strip leading and trailing whitespace, as JavaScript Number does. -/
def trimWs (l : JStr) : JStr :=
  ((l.dropWhile isWsChar).reverse.dropWhile isWsChar).reverse

/-- Hexadecimal digit test. -/
def isHexDigit (c : Char) : Bool :=
  isDigitChar c || (97 ≤ c.toNat && c.toNat ≤ 102) || (65 ≤ c.toNat && c.toNat ≤ 70)

/-- Hexadecimal digit value. -/
def hexDigitVal (c : Char) : Nat :=
  if 97 ≤ c.toNat then c.toNat - 87
  else if 65 ≤ c.toNat then c.toNat - 55
  else c.toNat - 48

/-- Octal digit test. -/
def isOctDigit (c : Char) : Bool := 48 ≤ c.toNat && c.toNat ≤ 55

/-- Binary digit test. -/
def isBinDigit (c : Char) : Bool := c == '0' || c == '1'

/-- Digits of a 0x / 0o / 0b radix literal: at least one digit, all of the
given radix. -/
def parseRadix (radix : Nat) (isD : Char → Bool) (val : Char → Nat) (l : JStr) : Option ℚ :=
  if l ≠ [] ∧ l.all isD then
    some ((l.foldl (fun n c => n * radix + val c) 0 : Nat) : ℚ)
  else none

/-- Exponent suffix of a decimal literal: empty keeps the base value, e or
E with an optional sign and digits scales by the power of ten, anything
else fails. -/
def parseExpPart (l : JStr) (base : ℚ) : Option ℚ :=
  if l = [] then some base
  else if l.head? = some 'e' ∨ l.head? = some 'E' then
    let r := l.tail
    let r2 := if r.head? = some '+' ∨ r.head? = some '-' then r.tail else r
    let ds := r2.takeWhile isDigitChar
    if ds = [] ∨ r2.dropWhile isDigitChar ≠ [] then none
    else if r.head? = some '-' then some (base / 10 ^ digitsToNat ds)
    else some (base * 10 ^ digitsToNat ds)
  else none

/-- Unsigned decimal literal: digits, an optional dot with fraction
digits (at least one digit overall), and an optional exponent part. -/
def parseUnsignedDec (l : JStr) : Option ℚ :=
  let ip := l.takeWhile isDigitChar
  let rest := l.dropWhile isDigitChar
  if rest = [] then
    if ip = [] then none else some ((digitsToNat ip : Nat) : ℚ)
  else if rest.head? = some '.' then
    let fp := rest.tail.takeWhile isDigitChar
    let rest2 := rest.tail.dropWhile isDigitChar
    if ip = [] ∧ fp = [] then none
    else parseExpPart rest2
      ((digitsToNat ip : ℚ) + (digitsToNat fp : ℚ) / 10 ^ fp.length)
  else if ip = [] then none
  else parseExpPart rest (digitsToNat ip : ℚ)

/-- Optionally signed decimal literal. -/
def parseSignedDec (l : JStr) : Option ℚ :=
  if l.head? = some '+' then parseUnsignedDec l.tail
  else if l.head? = some '-' then (parseUnsignedDec l.tail).map fun q => -q
  else parseUnsignedDec l

/-- Model of JavaScript `Number()` on the finite results of its string
grammar: whitespace is trimmed, the empty string gives 0, 0x / 0o / 0b
radix literals and optionally signed decimal literals with fraction and
exponent parts give their exact rational value, and every other string
fails. A failure stands for NaN or an infinite result (Infinity literals
fail here, matching the Number.isFinite guard of the caller, which maps
both to null); float rounding and overflow are idealized away by the
exact rational semantics. -/
def parseJsNumber (l : JStr) : Option ℚ :=
  let t := trimWs l
  if t = [] then some 0
  else if t.take 2 = ['0', 'x'] ∨ t.take 2 = ['0', 'X'] then
    parseRadix 16 isHexDigit hexDigitVal (t.drop 2)
  else if t.take 2 = ['0', 'o'] ∨ t.take 2 = ['0', 'O'] then
    parseRadix 8 isOctDigit (fun c => c.toNat - 48) (t.drop 2)
  else if t.take 2 = ['0', 'b'] ∨ t.take 2 = ['0', 'B'] then
    parseRadix 2 isBinDigit (fun c => c.toNat - 48) (t.drop 2)
  else parseSignedDec t

/-- Literal tag opening every item key. -/
def itemTag : JStr := ['i', 't', 'e', 'm', ':']

/-- Literal tag opening every fluid key. -/
def fluidTag : JStr := ['f', 'l', 'u', 'i', 'd', ':']

/-- From the source: `getTargetKey` builds the identity key -
`item:id:meta` for items and `fluid:id` (no meta component) for fluids.
The derived `outputKey` value in the source is produced by the same
expression applied to the output target. -/
def getTargetKey (t : Target) : JStr :=
  match t.type with
  | TKind.item => itemTag ++ (t.id ++ ':' :: ratToChars t.meta)
  | TKind.fluid => fluidTag ++ t.id

/-- Edge kinds of the response graph. -/
inductive EdgeKind
  | consumes
  | produces
  | byproduct
  deriving DecidableEq

/-- A response graph edge (types.ts `GraphEdge`), restricted to the fields
`utilizationByRecipeId` reads. -/
structure GraphEdge where
  id : String := ""
  source : String
  target : String
  kind : EdgeKind
  rate_per_s : ℚ
  deriving DecidableEq

/-- Node kinds of the response graph. -/
inductive GNodeType
  | item
  | fluid
  | recipe
  deriving DecidableEq

/-- A response graph node (types.ts `GraphNode`), restricted to the fields
the embedded computations read. -/
structure GraphNode where
  id : String
  type : GNodeType
  machines_required : Option ℚ := none
  machines_demand : Option ℚ := none
  deriving DecidableEq

/-- A response graph. -/
structure Graph where
  nodes : List GraphNode
  edges : List GraphEdge

/-- From the source `utilizationByRecipeId`: total rate of consumes edges
leaving a material node. The forEach-accumulated map entries of the source
are modelled as grouped sums over the matching edges. -/
def demandByNode (g : Graph) (nid : String) : ℚ :=
  ((g.edges.filter fun e => e.kind == EdgeKind.consumes && e.source == nid).map
    fun e => e.rate_per_s).sum

/-- Number of consumes edges leaving a material node. -/
def demandCountByNode (g : Graph) (nid : String) : Nat :=
  (g.edges.filter fun e => e.kind == EdgeKind.consumes && e.source == nid).length

/-- Total rate of produces and byproduct edges entering a material node. -/
def supplyByNode (g : Graph) (nid : String) : ℚ :=
  ((g.edges.filter fun e => !(e.kind == EdgeKind.consumes) && e.target == nid).map
    fun e => e.rate_per_s).sum

/-- Number of produces and byproduct edges entering a material node. -/
def produceCountByNode (g : Graph) (nid : String) : Nat :=
  (g.edges.filter fun e => !(e.kind == EdgeKind.consumes) && e.target == nid).length

/-- Consumes edges entering a recipe node. -/
def inputsByRecipe (g : Graph) (rid : String) : List GraphEdge :=
  g.edges.filter fun e => e.kind == EdgeKind.consumes && e.target == rid

/-- Produces edges (byproduct excluded) leaving a recipe node. -/
def outputsByRecipe (g : Graph) (rid : String) : List GraphEdge :=
  g.edges.filter fun e => e.kind == EdgeKind.produces && e.source == rid

/-- From the source: availability of a material feeding a recipe - 1 when
the id names no non-recipe node (map miss, `?? 1`), when the material has no
producing edge, or when its demand is nonpositive; otherwise supply over
demand clamped to [0, 1]. -/
def inputAvailabilityByNode (g : Graph) (nid : String) : ℚ :=
  match g.nodes.find? fun n => n.id == nid && !(n.type == GNodeType.recipe) with
  | none => 1
  | some _ =>
    if produceCountByNode g nid = 0 then 1
    else if demandByNode g nid ≤ 0 then 1
    else min 1 (max 0 (supplyByNode g nid / demandByNode g nid))

/-- From the source `getOutputDemandRatio`: null when the material has no
consuming edge, 0 when its supply is nonpositive, else demand over supply
clamped to [0, 1]. -/
def getOutputDemandRatio (g : Graph) (nid : String) : Option ℚ :=
  if demandCountByNode g nid = 0 then none
  else if supplyByNode g nid ≤ 0 then some 0
  else some (min 1 (max 0 (demandByNode g nid / supplyByNode g nid)))

/-- From the source: utilization of one recipe node - 0 when
machines_required is absent or nonpositive, otherwise `Math.min` of the
input availabilities and the non-null output demand ratios, 1 when the
ratio array is empty. -/
def nodeUtilization (g : Graph) (node : GraphNode) : ℚ :=
  match node.machines_required with
  | none => 0
  | some mr =>
    if mr ≤ 0 then 0
    else
      match (inputsByRecipe g node.id).map (fun e => inputAvailabilityByNode g e.source) ++
          (outputsByRecipe g node.id).filterMap (fun e => getOutputDemandRatio g e.target) with
      | [] => 1
      | x :: xs => xs.foldl min x

/-- From the source: the `utilizationByRecipeId` memo is empty unless the
rate mode is machines; otherwise it maps each recipe node id to its
utilization. -/
def utilizationByRecipeId (g : Graph) (rateModeMachines : Bool) (nid : String) : Option ℚ :=
  if !rateModeMachines then none
  else (g.nodes.find? fun n => n.id == nid && n.type == GNodeType.recipe).map
    (nodeUtilization g)

/-- The utilization rule exactly as worded by claim C4 (refinement
reference, not from the source): minimum over input-edge ratios
supply/demand clamped to [0,1] and output-edge ratios supply/demand at the
consumer - unclamped and in that orientation - or 1 when no ratio applies. -/
def claimNodeUtilization (g : Graph) (node : GraphNode) : ℚ :=
  match (inputsByRecipe g node.id).map (fun e =>
      min 1 (max 0 (supplyByNode g e.source / demandByNode g e.source))) ++
      (outputsByRecipe g node.id).map (fun e =>
      supplyByNode g e.target / demandByNode g e.target) with
  | [] => 1
  | x :: xs => xs.foldl min x

/-- Input-edge ratio of the amended claim: supply over demand clamped to
[0, 1], defaulting to 1 when the id names no non-recipe node, the material
has no producer, or demand is not positive. -/
def specInputRatio (g : Graph) (nid : String) : ℚ :=
  if (g.nodes.find? fun n => n.id == nid && !(n.type == GNodeType.recipe)).isSome ∧
      0 < produceCountByNode g nid ∧ 0 < demandByNode g nid then
    min 1 (max 0 (supplyByNode g nid / demandByNode g nid))
  else 1

/-- Output-edge ratio of the amended claim: demand at the consumer over
supply at the material, clamped to [0, 1], 0 on nonpositive supply, absent
when nothing consumes the material. -/
def specOutputRatio (g : Graph) (nid : String) : Option ℚ :=
  if 0 < demandCountByNode g nid then
    some (if supplyByNode g nid ≤ 0 then 0
      else min 1 (max 0 (demandByNode g nid / supplyByNode g nid)))
  else none

/-- Utilization as described by the amended claim: for a positive finite
machine count, the minimum over all applicable ratios with default 1;
otherwise 0. -/
def specNodeUtilization (g : Graph) (node : GraphNode) : ℚ :=
  match node.machines_required with
  | none => 0
  | some mr =>
    if 0 < mr then
      ((inputsByRecipe g node.id).map (fun e => specInputRatio g e.source) ++
        (outputsByRecipe g node.id).filterMap (fun e => specOutputRatio g e.target)).foldr min 1
    else 0

/-- Recipe node of the utilization counterexample: 3 machines producing
material M at 1.2/s total. -/
def cexNodeR : GraphNode :=
  { id := "R", type := GNodeType.recipe, machines_required := some 3 }

/-- Material node of the utilization counterexample. -/
def cexNodeM : GraphNode := { id := "M", type := GNodeType.item }

/-- Consumer recipe node of the utilization counterexample, drawing 1/s. -/
def cexNodeC : GraphNode :=
  { id := "C", type := GNodeType.recipe, machines_required := some 1 }

/-- Counterexample graph: R produces 1.2/s of M, C consumes 1/s of M. -/
def cexGraph : Graph :=
  { nodes := [cexNodeR, cexNodeM, cexNodeC],
    edges :=
      [{ id := "e1", source := "R", target := "M", kind := EdgeKind.produces,
         rate_per_s := 6 / 5 },
       { id := "e2", source := "M", target := "C", kind := EdgeKind.consumes,
         rate_per_s := 1 }] }

/-- Rate mode of the app state. -/
inductive RateMode
  | machines
  | output
  deriving DecidableEq

/-- Rate display unit of the app state. -/
inductive RateUnit
  | min
  | sec
  deriving DecidableEq

/-- An input target entry of the app state. -/
structure InputTarget where
  key : JStr
  target : Target
  rate_per_s : ℚ
  recipe : Option RecipeOption := none

/-- A byproduct loop entry of the app state. -/
structure ByproductTarget where
  id : String := ""
  input : Target
  output : Target
  recipe : RecipeOption

/-- The slice of the App component state that `runGraph` reads. -/
structure AppState where
  outputTarget : Option Target
  selectedRecipe : Option RecipeOption
  outputMachineCount : ℚ
  rateMode : RateMode
  rateValue : ℚ
  rateUnit : RateUnit
  machineCountOverrides : List (JStr × ℚ)
  inputRecipeOverrides : List (JStr × String)
  inputTargets : List InputTarget
  byproductTargets : List ByproductTarget
  recipeOverclockTiers : List (String × ℚ)

/-- One target record of the request payload. -/
structure RequestTarget where
  target_type : TKind
  target_id : JStr
  target_meta : ℚ
  target_rate_per_s : ℚ
  target_machine_count : Option Int := none
  deriving DecidableEq

/-- One byproduct record of the request payload. -/
structure ByproductReq where
  input_type : TKind
  input_id : JStr
  input_meta : ℚ
  output_type : TKind
  output_id : JStr
  output_meta : ℚ
  recipe_rid : String
  deriving DecidableEq

/-- The request payload `runGraph` posts to the backend. -/
structure GraphRequest where
  targets : List RequestTarget
  max_depth : Nat
  overclock_tiers : Nat
  parallel : Nat
  recipe_override : List (JStr × String)
  recipe_overclock_tiers : List (String × ℚ)
  machine_count_overrides : List (JStr × Int)
  byproduct_targets : List ByproductReq

/-- From the source: `getRatePerS = (value, unit = rateUnit) => unit === "min" ? value / 60 : value`. -/
def getRatePerS (value : ℚ) (unit : RateUnit) : ℚ :=
  if unit = RateUnit.min then value / 60 else value

/-- JavaScript object spread `{[base.1]: base.2, ...updates}`: a later
property with the same key overwrites the earlier one. -/
def jsSpreadInsert (base : JStr × String) (updates : List (JStr × String)) :
    List (JStr × String) :=
  if (updates.lookup base.1).isSome then updates else base :: updates

/-- From the source: the payload built by `runGraph` - null when no output
target, recipe, or key is selected. `recipe_override` spreads the input
overrides over the output-key entry; `machine_count_overrides` drops empty
keys and the output key and clamps values to whole numbers at least 0, and
is sent empty outside machines mode; the output target carries
`target_machine_count` (clamped to at least 1) only in machines mode. -/
def runGraphPayload (s : AppState) : Option GraphRequest :=
  match s.outputTarget, s.selectedRecipe with
  | some outTarget, some recipe =>
    let outKey := getTargetKey outTarget
    let extraTargets := s.inputTargets.filter fun e => !(e.key == outKey)
    let recipeOverride := jsSpreadInsert (outKey, recipe.rid) s.inputRecipeOverrides
    let safeMachineCount := clampWholeNumber s.outputMachineCount 1
    let outputRatePerS :=
      match s.rateMode with
      | RateMode.output => getRatePerS ((clampWholeNumber s.rateValue 1 : Int) : ℚ) s.rateUnit
      | RateMode.machines =>
        (getOutputRateFromMachines (some outTarget) (some recipe)
          s.recipeOverclockTiers s.outputMachineCount).getD 0
    let sanitized := s.machineCountOverrides.filterMap fun kv =>
      if kv.1 = [] ∨ kv.1 = outKey then none
      else some (kv.1, clampWholeNumber kv.2 0)
    some
      { targets :=
          { target_type := outTarget.type, target_id := outTarget.id,
            target_meta := outTarget.meta, target_rate_per_s := outputRatePerS,
            target_machine_count :=
              if s.rateMode = RateMode.machines then some safeMachineCount else none } ::
          extraTargets.map fun e =>
            { target_type := e.target.type, target_id := e.target.id,
              target_meta := e.target.meta, target_rate_per_s := e.rate_per_s,
              target_machine_count := none },
        max_depth := 0, overclock_tiers := 0, parallel := 1,
        recipe_override := recipeOverride,
        recipe_overclock_tiers := s.recipeOverclockTiers,
        machine_count_overrides :=
          if s.rateMode = RateMode.machines then sanitized else [],
        byproduct_targets := s.byproductTargets.map fun e =>
          { input_type := e.input.type, input_id := e.input.id,
            input_meta := e.input.meta, output_type := e.output.type,
            output_id := e.output.id, output_meta := e.output.meta,
            recipe_rid := e.recipe.rid } }
  | _, _ => none

/-- App state of the spread-precedence counterexample: the input recipe
overrides already hold an entry mapping the output key to rid r2 while the
selected recipe has rid scenario-a. -/
def cexState : AppState :=
  { outputTarget := some scenarioTarget, selectedRecipe := some scenarioRecipe,
    outputMachineCount := 1, rateMode := RateMode.machines, rateValue := 1,
    rateUnit := RateUnit.min, machineCountOverrides := [],
    inputRecipeOverrides := [(getTargetKey scenarioTarget, "r2")],
    inputTargets := [], byproductTargets := [], recipeOverclockTiers := [] }

/-- App state for the invariants witness: output mode, no overrides. -/
def witState : AppState :=
  { outputTarget := some scenarioTarget, selectedRecipe := some scenarioRecipe,
    outputMachineCount := 1, rateMode := RateMode.output, rateValue := 1,
    rateUnit := RateUnit.min, machineCountOverrides := [],
    inputRecipeOverrides := [], inputTargets := [], byproductTargets := [],
    recipeOverclockTiers := [] }

/-- The request the witness state builds. -/
def witReq : GraphRequest :=
  { targets :=
      [{ target_type := TKind.item, target_id := "x".toList, target_meta := 0,
         target_rate_per_s := 1 / 60, target_machine_count := none }],
    max_depth := 0, overclock_tiers := 0, parallel := 1,
    recipe_override := [(getTargetKey scenarioTarget, "scenario-a")],
    recipe_overclock_tiers := [], machine_count_overrides := [],
    byproduct_targets := [] }

/-! ## Theorems -/

theorem tierIndex_nonneg_of_mem {s : String} (hs : s ∈ TIERS) :
    0 ≤ tierIndex (some s) := by
  fin_cases hs <;> decide

theorem tierIndex_neg_of_not_mem {s : String} (hs : s ∉ TIERS) :
    tierIndex (some s) < 0 := by
  unfold tierIndex
  by_cases he : s = ""
  · simp [he]
  · have hnone : TIERS.findIdx? (· == s) = none := by
      rw [List.findIdx?_eq_none_iff]
      intro x hx
      simp only [beq_eq_false_iff_ne, ne_eq]
      intro hxs
      exact hs (hxs ▸ hx)
    simp [he, hnone]

/-- Claim C5: with both tiers known (members of `TIERS`), the overclock tier
count is `max 0 (selectedIndex - minIndex)`; with either tier absent or not a
known tier name, it is 0. -/
theorem getOverclockTiers_spec (m s : String) (hm : m ∈ TIERS) (hs : s ∈ TIERS) :
    getOverclockTiers (some m) (some s) =
      max 0 (tierIndex (some s) - tierIndex (some m)) ∧
    (∀ t, getOverclockTiers none t = 0) ∧
    (∀ t, getOverclockTiers t none = 0) ∧
    (∀ u, u ∉ TIERS → ∀ t, getOverclockTiers (some u) t = 0 ∧
      getOverclockTiers t (some u) = 0) := by
  refine ⟨?_, ?_, ?_, ?_⟩
  · have h1 := tierIndex_nonneg_of_mem hm
    have h2 := tierIndex_nonneg_of_mem hs
    unfold getOverclockTiers
    simp only []
    rw [if_neg]
    push_neg
    omega
  · intro t
    unfold getOverclockTiers
    simp [tierIndex]
  · intro t
    unfold getOverclockTiers tierIndex
    cases t with
    | none => simp
    | some u =>
      by_cases he : u = "" <;> cases hfind : TIERS.findIdx? (· == u) <;>
        simp [he, hfind]
  · intro u hu t
    have hneg := tierIndex_neg_of_not_mem hu
    constructor
    · unfold getOverclockTiers
      rw [if_pos (Or.inl hneg)]
    · unfold getOverclockTiers
      rw [if_pos (Or.inr hneg)]

/-- Witness for `getOverclockTiers_spec` at the concrete tiers LV and HV. -/
theorem getOverclockTiers_spec_witness :
    "LV" ∈ TIERS ∧ "HV" ∈ TIERS ∧
    getOverclockTiers (some "LV") (some "HV") =
      max 0 (tierIndex (some "HV") - tierIndex (some "LV")) := by
  refine ⟨by decide, by decide, ?_⟩
  exact (getOverclockTiers_spec "LV" "HV" (by decide) (by decide)).1

theorem one_le_startDuration (base : ℚ) : 1 ≤ startDuration base := by
  unfold startDuration
  omega

theorem one_le_halveStep (d : Nat) : 1 ≤ halveStep d := le_max_left 1 (d / 2)

theorem halveStep_le_self {d : Nat} (hd : 1 ≤ d) : halveStep d ≤ d := by
  unfold halveStep
  omega

theorem halveStep_iterate_closed {b : Nat} (hb : 1 ≤ b) (n : Nat) :
    halveStep^[n] b = max 1 (b / 2 ^ n) := by
  induction n with
  | zero => simp [Nat.le_antisymm, max_eq_right hb]
  | succ k ih =>
    rw [Function.iterate_succ_apply', ih]
    unfold halveStep
    by_cases hle : 1 ≤ b / 2 ^ k
    · rw [max_eq_right hle, Nat.div_div_eq_div_mul, ← pow_succ]
    · have hzero : b / 2 ^ k = 0 := Nat.eq_zero_of_not_pos hle
      have hlt : b < 2 ^ k := by
        rcases Nat.lt_or_ge b (2 ^ k) with h | h
        · exact h
        · exact absurd (Nat.one_le_div_iff (Nat.pos_pow_of_pos k (by omega)) |>.mpr h) hle
      have hzero2 : b / 2 ^ (k + 1) = 0 :=
        Nat.div_eq_of_lt (lt_of_lt_of_le hlt (Nat.pow_le_pow_right (by omega) (by omega)))
      rw [hzero, hzero2]
      decide

/-- Claim C2: for an integer base duration of at least one tick and any
number of overclock tiers, the iterated source loop computes the closed form
`max 1 (floor (base * (1/2) ^ n))`. -/
theorem effectiveDurationTicks_closed_form (b : Nat) (hb : 1 ≤ b) (n : Nat) :
    effectiveDurationTicks (b : ℚ) n = max 1 ⌊(b : ℚ) * (1 / 2 : ℚ) ^ n⌋₊ := by
  have hstart : startDuration (b : ℚ) = b := by
    unfold startDuration
    rw [Int.floor_natCast]
    omega
  have hfloor : ⌊(b : ℚ) * (1 / 2 : ℚ) ^ n⌋₊ = b / 2 ^ n := by
    have hrw : (b : ℚ) * (1 / 2 : ℚ) ^ n = (b : ℚ) / ((2 ^ n : ℕ) : ℚ) := by
      push_cast
      rw [div_pow, one_pow, mul_one_div]
    rw [hrw, Nat.floor_div_nat, Nat.floor_natCast]
  rw [effectiveDurationTicks, hstart, halveStep_iterate_closed hb, hfloor]

/-- Witness for `effectiveDurationTicks_closed_form` at base 100 and one
overclock tier. -/
theorem effectiveDurationTicks_closed_form_witness :
    1 ≤ 100 ∧
    effectiveDurationTicks ((100 : Nat) : ℚ) 1 =
      max 1 ⌊((100 : Nat) : ℚ) * (1 / 2 : ℚ) ^ 1⌋₊ :=
  ⟨by decide, effectiveDurationTicks_closed_form 100 (by decide) 1⟩

theorem effectiveDurationTicks_pos (base : ℚ) (n : Nat) :
    1 ≤ effectiveDurationTicks base n := by
  unfold effectiveDurationTicks
  induction n with
  | zero => exact one_le_startDuration base
  | succ k ih =>
    rw [Function.iterate_succ_apply']
    exact one_le_halveStep _

/-- Claim C6: effective duration never increases as the tier count grows, it
never drops below one tick, and once it reaches one tick it stays there. -/
theorem effectiveDurationTicks_monotone (base : ℚ) (n m : Nat) (hnm : n ≤ m) :
    effectiveDurationTicks base m ≤ effectiveDurationTicks base n ∧
    1 ≤ effectiveDurationTicks base n ∧
    (effectiveDurationTicks base n = 1 → effectiveDurationTicks base m = 1) := by
  obtain ⟨k, rfl⟩ := Nat.exists_eq_add_of_le hnm
  have hsplit : effectiveDurationTicks base (n + k) =
      halveStep^[k] (effectiveDurationTicks base n) := by
    unfold effectiveDurationTicks
    rw [Nat.add_comm, Function.iterate_add_apply]
  have hstays : ∀ j, halveStep^[j] 1 = 1 := by
    intro j
    induction j with
    | zero => rfl
    | succ i ih => rw [Function.iterate_succ_apply', ih]; rfl
  refine ⟨?_, effectiveDurationTicks_pos base n, ?_⟩
  · rw [hsplit]
    have hgen : ∀ j d, 1 ≤ d → halveStep^[j] d ≤ d := by
      intro j
      induction j with
      | zero => intro d _; exact le_refl d
      | succ i ih =>
        intro d hd
        rw [Function.iterate_succ_apply]
        exact le_trans (ih _ (one_le_halveStep d)) (halveStep_le_self hd)
    exact hgen k _ (effectiveDurationTicks_pos base n)
  · intro hone
    rw [hsplit, hone, hstays]

/-- Witness for `effectiveDurationTicks_monotone` at base 100, tiers 1 and 9. -/
theorem effectiveDurationTicks_monotone_witness :
    1 ≤ 9 ∧
    effectiveDurationTicks (100 : ℚ) 9 ≤ effectiveDurationTicks (100 : ℚ) 1 ∧
    1 ≤ effectiveDurationTicks (100 : ℚ) 1 :=
  ⟨by decide, (effectiveDurationTicks_monotone 100 1 9 (by decide)).1,
    (effectiveDurationTicks_monotone 100 1 9 (by decide)).2.1⟩

/-- Claim C7 (amended): the candidate sort orders recipes by ascending
duration times eut and permutes the input; recipes of equal energy keep
their original relative order (stability), with no rid tie-break. -/
theorem sortRecipesByEnergy_spec (l : List RecipeOption) :
    List.Sorted energyLE (sortRecipesByEnergy l) ∧
    (sortRecipesByEnergy l).Perm l ∧
    ∀ e : ℚ,
      (sortRecipesByEnergy l).filter (fun r => decide (getRecipeEnergy r = e)) =
        l.filter (fun r => decide (getRecipeEnergy r = e)) := by
  refine ⟨List.sorted_insertionSort energyLE l, List.perm_insertionSort energyLE l, ?_⟩
  intro e
  set p : RecipeOption → Bool := fun r => decide (getRecipeEnergy r = e) with hp
  have hmem : ∀ a ∈ l.filter p, p a = true := fun a ha => (List.mem_filter.mp ha).2
  have hpair : (l.filter p).Pairwise energyLE := by
    apply List.pairwise_of_forall_mem_list
    intro a ha b hb
    have ha' : getRecipeEnergy a = e := by
      have := hmem a ha
      simpa [hp] using this
    have hb' : getRecipeEnergy b = e := by
      have := hmem b hb
      simpa [hp] using this
    unfold energyLE
    rw [ha', hb']
  have hsub : List.Sublist (l.filter p) (sortRecipesByEnergy l) :=
    List.sublist_insertionSort hpair (List.filter_sublist l)
  have hsame : (l.filter p).filter p = l.filter p := List.filter_eq_self.mpr hmem
  have hsub2 : List.Sublist (l.filter p) ((sortRecipesByEnergy l).filter p) := by
    rw [← hsame]
    exact List.Sublist.filter p hsub
  have hperm : ((sortRecipesByEnergy l).filter p).Perm (l.filter p) :=
    (List.perm_insertionSort energyLE l).filter p
  exact (hsub2.eq_of_length hperm.length_eq.symm).symm

/-- Counterexample to claim C7 as stated: two candidates of equal energy in
the order [b, a] keep that order after the sort; the claimed ascending-rid
tie-break would give [a, b]. -/
theorem sortRecipesByEnergy_no_rid_tiebreak :
    getRecipeEnergy recipeTieA = getRecipeEnergy recipeTieB ∧
    recipeTieA.rid < recipeTieB.rid ∧
    sortRecipesByEnergy [recipeTieB, recipeTieA] = [recipeTieB, recipeTieA] ∧
    sortRecipesByEnergy [recipeTieB, recipeTieA] ≠ [recipeTieA, recipeTieB] := by
  have hsort : sortRecipesByEnergy [recipeTieB, recipeTieA] = [recipeTieB, recipeTieA] := by
    simp [sortRecipesByEnergy, List.insertionSort, List.orderedInsert, energyLE,
      getRecipeEnergy, recipeTieA, recipeTieB]
  have hlt : recipeTieA.rid < recipeTieB.rid := by
    show ("a" : String) < "b"
    rw [String.lt_iff_toList_lt]
    decide
  refine ⟨by simp [recipeTieA, recipeTieB, getRecipeEnergy], hlt, hsort, ?_⟩
  rw [hsort]
  simp [recipeTieA, recipeTieB]

/-- Claim C1: absent a manual override the machine count is the ceiling of
the machine demand - the suggested count of the source effect agrees with
the spec-modelled ceiling for every nonnegative demand - and ceiling-many
machines meet the demanded rate. -/
theorem machinesRequired_meets_demand (demandedRate perMachineRate : ℚ)
    (hR : 0 ≤ demandedRate) (hr : 0 < perMachineRate) :
    suggestedMachineCount (machinesDemand demandedRate perMachineRate) =
      machinesRequired (machinesDemand demandedRate perMachineRate) ∧
    demandedRate ≤
      (machinesRequired (machinesDemand demandedRate perMachineRate) : ℚ) *
        perMachineRate := by
  have hd : 0 ≤ machinesDemand demandedRate perMachineRate :=
    div_nonneg hR (le_of_lt hr)
  constructor
  · have hceil : (0 : Int) ≤ ⌈machinesDemand demandedRate perMachineRate⌉ :=
      Int.ceil_nonneg hd
    unfold suggestedMachineCount machinesRequired
    omega
  · have hle : machinesDemand demandedRate perMachineRate ≤
        ((machinesRequired (machinesDemand demandedRate perMachineRate) : Int) : ℚ) :=
      Int.le_ceil _
    have hne : perMachineRate ≠ 0 := ne_of_gt hr
    calc demandedRate
        = machinesDemand demandedRate perMachineRate * perMachineRate := by
          unfold machinesDemand
          field_simp
      _ ≤ (machinesRequired (machinesDemand demandedRate perMachineRate) : ℚ) *
            perMachineRate :=
          mul_le_mul_of_nonneg_right hle (le_of_lt hr)

/-- Witness for `machinesRequired_meets_demand`: a demand of 1/s at a
per-machine rate of 0.2/s needs ceil(5) = 5 machines, and 5 machines
supply at least 1/s. -/
theorem machinesRequired_meets_demand_witness :
    (0 : ℚ) ≤ 1 ∧ (0 : ℚ) < 1 / 5 ∧
    (suggestedMachineCount (machinesDemand 1 (1 / 5)) =
      machinesRequired (machinesDemand 1 (1 / 5)) ∧
    (1 : ℚ) ≤ (machinesRequired (machinesDemand 1 (1 / 5)) : ℚ) * (1 / 5)) :=
  ⟨by norm_num, by norm_num,
    machinesRequired_meets_demand 1 (1 / 5) (by norm_num) (by norm_num)⟩

theorem effectiveDurationTicks_scenario :
    effectiveDurationTicks (100 : ℚ) (overclockCount [] "whatever") = 100 := by
  have hoc : overclockCount [] "whatever" = 0 := by
    simp [overclockCount]
  rw [hoc]
  norm_num [effectiveDurationTicks, startDuration]
  decide

/-- Claim C3 (amended): for a matching output entry with positive per-cycle
amount, the machines-mode rate is the per-cycle amount divided by the
effective duration in seconds (ticks over 20), times the clamped machine
count; the chance field of the entry is not applied. Scenario A holds: at
100 ticks, one per cycle, no overclock and one machine the rate is 0.2/s,
and at a demanded rate of 1/s (60/min) the spec-modelled machine demand is
5 and the required count is 5. -/
theorem getOutputRateFromMachines_rate_formula (t : Target) (r : RecipeOption)
    (octs : List (String × ℚ)) (mc : ℚ) (perCycle : ℚ)
    (hfind : findMatchingOutput t r = some perCycle) (hpos : 0 < perCycle) :
    getOutputRateFromMachines (some t) (some r) octs mc =
      some (perCycle /
        ((effectiveDurationTicks r.duration_ticks (overclockCount octs r.rid) : ℚ) / 20) *
        (clampWholeNumber mc 1 : ℚ)) ∧
    getOutputRateFromMachines (some scenarioTarget) (some scenarioRecipe) [] 1 =
      some (1 / 5) ∧
    machinesDemand 1 (1 / 5) = 5 ∧
    machinesRequired (machinesDemand 1 (1 / 5)) = 5 := by
  refine ⟨?_, ?_, by norm_num [machinesDemand], ?_⟩
  · simp only [getOutputRateFromMachines, hfind]
    rw [if_neg (not_le.mpr hpos)]
    congr 1
    ring
  · have hfind2 : findMatchingOutput scenarioTarget scenarioRecipe = some 1 := by
      simp [findMatchingOutput, scenarioTarget, scenarioRecipe]
    simp only [getOutputRateFromMachines, hfind2]
    have hdur : effectiveDurationTicks scenarioRecipe.duration_ticks
        (overclockCount [] scenarioRecipe.rid) = 100 := by
      have hoc : overclockCount [] scenarioRecipe.rid = 0 := by
        simp [overclockCount]
      rw [hoc]
      norm_num [effectiveDurationTicks, startDuration, scenarioRecipe]
      decide
    simp only [hdur]
    norm_num [clampWholeNumber]
  · have : machinesDemand 1 (1 / 5) = 5 := by norm_num [machinesDemand]
    rw [this]
    norm_num [machinesRequired]

/-- Witness for `getOutputRateFromMachines_rate_formula` at the Scenario A
recipe itself. -/
theorem getOutputRateFromMachines_rate_formula_witness :
    findMatchingOutput scenarioTarget scenarioRecipe = some 1 ∧
    (0 : ℚ) < 1 ∧
    getOutputRateFromMachines (some scenarioTarget) (some scenarioRecipe) [] 1 =
      some ((1 : ℚ) /
        ((effectiveDurationTicks scenarioRecipe.duration_ticks
          (overclockCount [] scenarioRecipe.rid) : ℚ) / 20) *
        (clampWholeNumber 1 1 : ℚ)) := by
  have hfind : findMatchingOutput scenarioTarget scenarioRecipe = some 1 := by
    simp [findMatchingOutput, scenarioTarget, scenarioRecipe]
  exact ⟨hfind, by norm_num,
    (getOutputRateFromMachines_rate_formula scenarioTarget scenarioRecipe [] 1 1
      hfind (by norm_num)).1⟩

/-- Counterexample to claim C3 as stated: for a probabilistic output entry
with chance one half the source computes 0.2/s per machine, while the
chance-scaled rule of the claim gives 0.1/s. -/
theorem getOutputRateFromMachines_ignores_chance :
    getOutputRateFromMachines (some scenarioTarget) (some chanceRecipe) [] 1 =
      some (1 / 5) ∧
    specChanceScaledRate 1 (some (1 / 2)) 100 = 1 / 10 ∧
    (1 / 5 : ℚ) ≠ 1 / 10 := by
  refine ⟨?_, by norm_num [specChanceScaledRate], by norm_num⟩
  have hfind2 : findMatchingOutput scenarioTarget chanceRecipe = some 1 := by
    simp [findMatchingOutput, scenarioTarget, chanceRecipe, chanceEntry]
  simp only [getOutputRateFromMachines, hfind2]
  have hdur : effectiveDurationTicks chanceRecipe.duration_ticks
      (overclockCount [] chanceRecipe.rid) = 100 := by
    have hoc : overclockCount [] chanceRecipe.rid = 0 := by
      simp [overclockCount]
    rw [hoc]
    norm_num [effectiveDurationTicks, startDuration, chanceRecipe]
    decide
  simp only [hdur]
  norm_num [clampWholeNumber]

theorem digitChar_toNat {d : Nat} (hd : d < 10) : (digitChar d).toNat = 48 + d := by
  interval_cases d <;> decide

theorem mem_natToChars_isDigit (n : Nat) :
    ∀ c ∈ natToChars n, 48 ≤ c.toNat ∧ c.toNat ≤ 57 := by
  induction n using Nat.strong_induction_on with
  | _ n ih =>
    intro c hc
    by_cases h : n < 10
    · rw [natToChars] at hc
      rw [dif_pos h] at hc
      simp only [List.mem_singleton] at hc
      subst hc
      interval_cases n <;> decide
    · rw [natToChars] at hc
      rw [dif_neg h] at hc
      rcases List.mem_append.mp hc with h1 | h2
      · exact ih (n / 10) (Nat.div_lt_self (by omega) (by omega)) c h1
      · simp only [List.mem_singleton] at h2
        subst h2
        have hm : n % 10 < 10 := Nat.mod_lt _ (by omega)
        set k := n % 10 with hk
        clear hk
        interval_cases k <;> decide

theorem isDigitChar_of_mem_natToChars {n : Nat} {c : Char} (hc : c ∈ natToChars n) :
    isDigitChar c = true := by
  have := mem_natToChars_isDigit n c hc
  simp only [isDigitChar, Bool.and_eq_true, decide_eq_true_eq]
  omega

theorem natToChars_ne_nil (n : Nat) : natToChars n ≠ [] := by
  rw [natToChars]
  by_cases h : n < 10
  · rw [dif_pos h]
    simp
  · rw [dif_neg h]
    simp

theorem digitsToNat_natToChars (n : Nat) : digitsToNat (natToChars n) = n := by
  induction n using Nat.strong_induction_on with
  | _ n ih =>
    by_cases h : n < 10
    · rw [natToChars, dif_pos h]
      show 0 * 10 + ((digitChar n).toNat - 48) = n
      rw [digitChar_toNat h]
      omega
    · rw [natToChars, dif_neg h]
      unfold digitsToNat
      rw [List.foldl_append]
      show digitsToNat (natToChars (n / 10)) * 10 + ((digitChar (n % 10)).toNat - 48) = n
      rw [ih (n / 10) (Nat.div_lt_self (by omega) (by omega)),
        digitChar_toNat (Nat.mod_lt _ (by omega))]
      omega

theorem digitsToNat_replicate_zero (j : Nat) (l : JStr) :
    digitsToNat (List.replicate j '0' ++ l) = digitsToNat l := by
  induction j with
  | zero => rfl
  | succ i ih =>
    rw [List.replicate_succ, List.cons_append]
    show digitsToNat (List.replicate i '0' ++ l) = digitsToNat l
    exact ih

theorem natToChars_length_le {m k : Nat} (hk : 1 ≤ k) (hm : m < 10 ^ k) :
    (natToChars m).length ≤ k := by
  induction m using Nat.strong_induction_on generalizing k with
  | _ m ih =>
    by_cases h : m < 10
    · rw [natToChars, dif_pos h]
      simpa using hk
    · rw [natToChars, dif_neg h]
      rw [List.length_append]
      have hk2 : 2 ≤ k := by
        by_contra hcon
        push_neg at hcon
        have hk1' : k = 1 := by omega
        rw [hk1'] at hm
        simp at hm
        omega
      have hdiv : m / 10 < 10 ^ (k - 1) := by
        have h1 : 10 ^ k = 10 ^ (k - 1) * 10 := by
          rw [← pow_succ]
          congr 1
          omega
        rw [Nat.div_lt_iff_lt_mul (by omega)]
        omega
      have hlen := ih (m / 10) (Nat.div_lt_self (by omega) (by omega)) (by omega) hdiv
      simp only [List.length_singleton]
      omega

theorem decExpOf_dvd {d k : Nat} (h : decExpOf d = some k) : d ∣ 10 ^ k := by
  have := List.find?_some h
  simpa using this

theorem exists_dvd_pow10_le {d : Nat} : ∀ {k : Nat}, d ∣ 10 ^ k → ∃ j, j ≤ d ∧ d ∣ 10 ^ j := by
  induction d using Nat.strong_induction_on with
  | _ d ih =>
    intro k h
    rcases Nat.eq_zero_or_pos d with rfl | hd0
    · exact absurd (Nat.eq_zero_of_zero_dvd h) (Nat.pos_pow_of_pos k (by omega)).ne'
    by_cases h1 : d = 1
    · exact ⟨0, by omega, by simp [h1]⟩
    by_cases h2 : 2 ∣ d
    · obtain ⟨d2, rfl⟩ := h2
      have hd2pos : 0 < d2 := by omega
      have hd2dvd : d2 ∣ 10 ^ k := dvd_trans (Dvd.intro_left 2 rfl) h
      obtain ⟨j, hjle, hjdvd⟩ := ih d2 (by omega) hd2dvd
      refine ⟨j + 1, by omega, ?_⟩
      have hstep : 2 * d2 ∣ 2 * (10 ^ j * 5) :=
        Nat.mul_dvd_mul_left 2 (Dvd.dvd.mul_right hjdvd 5)
      have heq : 2 * (10 ^ j * 5) = 10 ^ (j + 1) := by ring
      rw [← heq]
      exact hstep
    by_cases h5 : 5 ∣ d
    · obtain ⟨d5, rfl⟩ := h5
      have hd5pos : 0 < d5 := by omega
      have hd5dvd : d5 ∣ 10 ^ k := dvd_trans (Dvd.intro_left 5 rfl) h
      obtain ⟨j, hjle, hjdvd⟩ := ih d5 (by omega) hd5dvd
      refine ⟨j + 1, by omega, ?_⟩
      have hstep : 5 * d5 ∣ 5 * (10 ^ j * 2) :=
        Nat.mul_dvd_mul_left 5 (Dvd.dvd.mul_right hjdvd 2)
      have heq : 5 * (10 ^ j * 2) = 10 ^ (j + 1) := by ring
      rw [← heq]
      exact hstep
    · exfalso
      have hc2 : Nat.Coprime 2 d := (Nat.Prime.coprime_iff_not_dvd Nat.prime_two).mpr h2
      have hc5 : Nat.Coprime 5 d := (Nat.Prime.coprime_iff_not_dvd (by norm_num)).mpr h5
      have hc10 : Nat.Coprime 10 d := by
        have hmul := Nat.Coprime.mul hc2 hc5
        norm_num at hmul
        exact hmul
      have hck : Nat.gcd (10 ^ k) d = 1 := Nat.Coprime.pow_left k hc10
      have hdg : d ∣ Nat.gcd (10 ^ k) d := Nat.dvd_gcd h dvd_rfl
      rw [hck] at hdg
      exact h1 (Nat.dvd_one.mp hdg)

theorem decExpOf_isSome {d k : Nat} (hd : d ∣ 10 ^ k) : ∃ j, decExpOf d = some j := by
  obtain ⟨j, hjle, hjdvd⟩ := exists_dvd_pow10_le hd
  have hsome : (decExpOf d).isSome := by
    rw [decExpOf, List.find?_isSome]
    exact ⟨j, List.mem_range.mpr (by omega), by simpa using hjdvd⟩
  exact Option.isSome_iff_exists.mp hsome

theorem takeWhile_eq_self_of_all {p : Char → Bool} {l : JStr}
    (h : ∀ c ∈ l, p c = true) : l.takeWhile p = l ∧ l.dropWhile p = [] := by
  induction l with
  | nil => exact ⟨rfl, rfl⟩
  | cons x xs ih =>
    have hx := h x (List.mem_cons_self x xs)
    have ihh := ih fun c hc => h c (List.mem_cons_of_mem _ hc)
    constructor <;>
      simp [List.takeWhile_cons, List.dropWhile_cons, hx, ihh.1, ihh.2]

theorem takeWhile_append_cons {p : Char → Bool} {A B : JStr} {b : Char}
    (hA : ∀ c ∈ A, p c = true) (hb : p b = false) :
    (A ++ b :: B).takeWhile p = A ∧ (A ++ b :: B).dropWhile p = b :: B := by
  induction A with
  | nil => simp [List.takeWhile_cons, List.dropWhile_cons, hb]
  | cons x xs ih =>
    have hx := hA x (List.mem_cons_self x xs)
    have ihh := ih fun c hc => hA c (List.mem_cons_of_mem _ hc)
    constructor <;>
      simp [List.takeWhile_cons, List.dropWhile_cons, hx, ihh.1, ihh.2]

theorem dropWhile_eq_self_of_none {p : Char → Bool} {l : JStr}
    (h : ∀ c ∈ l, p c = false) : l.dropWhile p = l := by
  cases l with
  | nil => rfl
  | cons x xs => simp [List.dropWhile_cons, h x (List.mem_cons_self x xs)]

theorem trimWs_eq_self {l : JStr} (h : ∀ c ∈ l, isWsChar c = false) : trimWs l = l := by
  unfold trimWs
  rw [dropWhile_eq_self_of_none h,
    dropWhile_eq_self_of_none (fun c hc => h c (List.mem_reverse.mp hc)),
    List.reverse_reverse]

theorem mem_natToCharsPadded_isDigit {k m : Nat} {c : Char}
    (hc : c ∈ natToCharsPadded k m) : isDigitChar c = true := by
  unfold natToCharsPadded at hc
  rcases List.mem_append.mp hc with h1 | h2
  · have hz := List.eq_of_mem_replicate h1
    subst hz
    decide
  · exact isDigitChar_of_mem_natToChars h2

theorem mem_ratAbsToChars {q : ℚ} {c : Char} (hc : c ∈ ratAbsToChars q) :
    isDigitChar c = true ∨ c = '.' := by
  unfold ratAbsToChars at hc
  by_cases hden : q.den = 1
  · rw [if_pos hden] at hc
    exact Or.inl (isDigitChar_of_mem_natToChars hc)
  · rw [if_neg hden] at hc
    cases hdec : decExpOf q.den with
    | none =>
      simp only [hdec] at hc
      exact Or.inl (isDigitChar_of_mem_natToChars hc)
    | some k =>
      simp only [hdec] at hc
      rcases List.mem_append.mp hc with h1 | h2
      · exact Or.inl (isDigitChar_of_mem_natToChars h1)
      · rcases List.mem_cons.mp h2 with h3 | h4
        · exact Or.inr h3
        · exact Or.inl (mem_natToCharsPadded_isDigit h4)

theorem mem_ratToChars {q : ℚ} {c : Char} (hc : c ∈ ratToChars q) :
    isDigitChar c = true ∨ c = '.' ∨ c = '-' := by
  unfold ratToChars at hc
  by_cases hneg : q < 0
  · rw [if_pos hneg] at hc
    rcases List.mem_cons.mp hc with h1 | h2
    · exact Or.inr (Or.inr h1)
    · rcases mem_ratAbsToChars h2 with h3 | h3
      · exact Or.inl h3
      · exact Or.inr (Or.inl h3)
  · rw [if_neg hneg] at hc
    rcases mem_ratAbsToChars hc with h3 | h3
    · exact Or.inl h3
    · exact Or.inr (Or.inl h3)

theorem colon_not_mem_natToChars (n : Nat) : ':' ∉ natToChars n := by
  intro hmem
  have := mem_natToChars_isDigit n ':' hmem
  revert this
  decide

theorem isWsChar_false_of_class {c : Char}
    (h : isDigitChar c = true ∨ c = '.' ∨ c = '-') : isWsChar c = false := by
  rcases h with h | h | h
  · simp only [isDigitChar, Bool.and_eq_true, decide_eq_true_eq] at h
    simp only [isWsChar, Bool.or_eq_false_iff, beq_eq_false_iff_ne, ne_eq]
    refine ⟨⟨⟨?_, ?_⟩, ?_⟩, ?_⟩ <;>
      · intro he
        subst he
        revert h
        decide
  · subst h
    decide
  · subst h
    decide

theorem parseUnsignedDec_ratAbsToChars (q : ℚ) (hq : 0 ≤ q) {K : Nat}
    (hdvd : q.den ∣ 10 ^ K) :
    parseUnsignedDec (ratAbsToChars q) = some q := by
  have hnumQ : ((q.num.toNat : ℚ)) = (q.num : ℚ) := by
    exact_mod_cast Int.toNat_of_nonneg (Rat.num_nonneg.mpr hq)
  by_cases hden : q.den = 1
  · rw [ratAbsToChars, if_pos hden]
    obtain ⟨ht, hdw⟩ := takeWhile_eq_self_of_all
      (fun c (hc : c ∈ natToChars q.num.toNat) => isDigitChar_of_mem_natToChars hc)
    simp only [parseUnsignedDec, ht, hdw]
    rw [if_pos trivial, if_neg (natToChars_ne_nil _), digitsToNat_natToChars]
    congr 1
    rw [hnumQ]
    have h := q.num_div_den
    rw [hden] at h
    simpa using h
  · obtain ⟨k, hk⟩ := decExpOf_isSome hdvd
    have hdk : q.den ∣ 10 ^ k := decExpOf_dvd hk
    have hdpos : 0 < q.den := q.pos
    have h10 : 0 < (10 : ℕ) ^ k := Nat.pos_pow_of_pos k (by norm_num)
    have hk1 : 1 ≤ k := by
      rcases Nat.eq_zero_or_pos k with hk0 | h
      · exfalso
        rw [hk0, pow_zero] at hdk
        exact hden (Nat.dvd_one.mp hdk)
      · exact h
    rw [ratAbsToChars, if_neg hden]
    simp only [hk]
    have hAdig : ∀ c ∈ natToChars (q.num.toNat / q.den), isDigitChar c = true :=
      fun c hc => isDigitChar_of_mem_natToChars hc
    have hBdig : ∀ c ∈ natToCharsPadded k (q.num.toNat * 10 ^ k / q.den % 10 ^ k),
        isDigitChar c = true := fun c hc => mem_natToCharsPadded_isDigit hc
    obtain ⟨ht, hdw⟩ := takeWhile_append_cons hAdig (show isDigitChar '.' = false by decide)
    obtain ⟨hft, hfd⟩ := takeWhile_eq_self_of_all hBdig
    have hhd : ('.' :: natToCharsPadded k (q.num.toNat * 10 ^ k / q.den % 10 ^ k)).head? =
        some '.' := rfl
    simp only [parseUnsignedDec]
    rw [ht, hdw]
    rw [if_neg (List.cons_ne_nil _ _), if_pos hhd, List.tail_cons, hft, hfd]
    rw [if_neg (fun h => natToChars_ne_nil _ h.1)]
    rw [parseExpPart, if_pos rfl]
    congr 1
    rw [digitsToNat_natToChars]
    have hBval : digitsToNat (natToCharsPadded k (q.num.toNat * 10 ^ k / q.den % 10 ^ k)) =
        q.num.toNat * 10 ^ k / q.den % 10 ^ k := by
      rw [natToCharsPadded, digitsToNat_replicate_zero, digitsToNat_natToChars]
    have hBlen : (natToCharsPadded k (q.num.toNat * 10 ^ k / q.den % 10 ^ k)).length = k := by
      rw [natToCharsPadded, List.length_append, List.length_replicate]
      have hmlt : q.num.toNat * 10 ^ k / q.den % 10 ^ k < 10 ^ k := Nat.mod_lt _ h10
      have hle := natToChars_length_le hk1 hmlt
      omega
    rw [hBval, hBlen]
    have hde : q.den * (10 ^ k / q.den) = 10 ^ k := Nat.mul_div_cancel' hdk
    have hepos : 0 < 10 ^ k / q.den := Nat.div_pos (Nat.le_of_dvd h10 hdk) hdpos
    have hscaled : q.num.toNat * 10 ^ k / q.den = q.num.toNat * (10 ^ k / q.den) := by
      conv_lhs => rw [← hde]
      rw [show q.num.toNat * (q.den * (10 ^ k / q.den)) =
        q.num.toNat * (10 ^ k / q.den) * q.den by ring]
      exact Nat.mul_div_cancel _ hdpos
    have hdiv2 : q.num.toNat * (10 ^ k / q.den) / 10 ^ k = q.num.toNat / q.den := by
      nth_rewrite 2 [← hde]
      exact Nat.mul_div_mul_right _ _ hepos
    have hdecomp : q.num.toNat / q.den * 10 ^ k +
        q.num.toNat * (10 ^ k / q.den) % 10 ^ k = q.num.toNat * (10 ^ k / q.den) := by
      have hmod := Nat.div_add_mod (q.num.toNat * (10 ^ k / q.den)) (10 ^ k)
      rw [hdiv2] at hmod
      rw [Nat.mul_comm] at hmod
      exact hmod
    rw [hscaled]
    have hq10 : ((10 : ℚ)) ^ k ≠ 0 := by positivity
    have hdQ : ((q.den : ℕ) : ℚ) ≠ 0 := by
      exact_mod_cast hdpos.ne'
    have heQ : ((10 ^ k / q.den : ℕ) : ℚ) ≠ 0 := by
      exact_mod_cast hepos.ne'
    have key : ((q.num.toNat / q.den : ℕ) : ℚ) +
        ((q.num.toNat * (10 ^ k / q.den) % 10 ^ k : ℕ) : ℚ) / 10 ^ k =
        ((q.num.toNat * (10 ^ k / q.den) : ℕ) : ℚ) / ((10 : ℚ)) ^ k := by
      rw [eq_div_iff hq10, add_mul, div_mul_cancel₀ _ hq10]
      have hcast := congrArg (fun n : ℕ => (n : ℚ)) hdecomp
      push_cast at hcast ⊢
      linarith [hcast]
    rw [key]
    have hdeQ : ((q.den : ℕ) : ℚ) * ((10 ^ k / q.den : ℕ) : ℚ) = (10 : ℚ) ^ k := by
      have hc := congrArg (fun n : ℕ => (n : ℚ)) hde
      push_cast at hc
      exact hc
    have hsplit : ((q.num.toNat * (10 ^ k / q.den) : ℕ) : ℚ) =
        (q.num.toNat : ℚ) * ((10 ^ k / q.den : ℕ) : ℚ) := by
      push_cast
      ring
    rw [← hdeQ, hsplit]
    have hred : (q.num.toNat : ℚ) * ((10 ^ k / q.den : ℕ) : ℚ) /
        (((q.den : ℕ) : ℚ) * ((10 ^ k / q.den : ℕ) : ℚ)) =
        (q.num.toNat : ℚ) / ((q.den : ℕ) : ℚ) := by
      rw [div_eq_div_iff (mul_ne_zero hdQ heQ) hdQ]
      ring
    rw [hred, hnumQ]
    exact q.num_div_den

theorem ratToChars_ne_nil (q : ℚ) : ratToChars q ≠ [] := by
  rw [ratToChars]
  by_cases h : q < 0
  · rw [if_pos h]
    exact List.cons_ne_nil _ _
  · rw [if_neg h, ratAbsToChars]
    by_cases hden : q.den = 1
    · rw [if_pos hden]
      exact natToChars_ne_nil _
    · rw [if_neg hden]
      cases hdec : decExpOf q.den with
      | none => exact natToChars_ne_nil _
      | some k =>
        simp only []
        intro hcon
        exact natToChars_ne_nil _ (List.append_eq_nil.mp hcon).1

theorem parseJsNumber_ratToChars (q : ℚ) {K : Nat} (hdvd : q.den ∣ 10 ^ K) :
    parseJsNumber (ratToChars q) = some q := by
  have hclass : ∀ c ∈ ratToChars q, isDigitChar c = true ∨ c = '.' ∨ c = '-' :=
    fun c hc => mem_ratToChars hc
  have htrim : trimWs (ratToChars q) = ratToChars q :=
    trimWs_eq_self fun c hc => isWsChar_false_of_class (hclass c hc)
  have hmem2 : ∀ {c2 : Char}, (ratToChars q).take 2 = ['0', c2] → c2 ∈ ratToChars q := by
    intro c2 h
    have hmem : c2 ∈ (ratToChars q).take 2 := by
      rw [h]
      exact List.mem_cons_of_mem _ (List.mem_singleton.mpr rfl)
    exact List.mem_of_mem_take hmem
  have hnox : ∀ {c2 : Char}, isDigitChar c2 = false → c2 ≠ '.' → c2 ≠ '-' →
      ¬(ratToChars q).take 2 = ['0', c2] := by
    intro c2 hd hdot hdash h
    rcases hclass c2 (hmem2 h) with h1 | h1 | h1
    · rw [hd] at h1
      exact Bool.false_ne_true h1
    · exact hdot h1
    · exact hdash h1
  simp only [parseJsNumber, htrim]
  rw [if_neg (ratToChars_ne_nil q)]
  rw [if_neg (not_or.mpr ⟨hnox (by decide) (by decide) (by decide),
    hnox (by decide) (by decide) (by decide)⟩)]
  rw [if_neg (not_or.mpr ⟨hnox (by decide) (by decide) (by decide),
    hnox (by decide) (by decide) (by decide)⟩)]
  rw [if_neg (not_or.mpr ⟨hnox (by decide) (by decide) (by decide),
    hnox (by decide) (by decide) (by decide)⟩)]
  rw [parseSignedDec]
  by_cases hneg : q < 0
  · have hshape : ratToChars q = '-' :: ratAbsToChars (-q) := by
      rw [ratToChars, if_pos hneg]
    rw [hshape]
    have hhd : ('-' :: ratAbsToChars (-q)).head? = some '-' := rfl
    have hplus : ('-' :: ratAbsToChars (-q)).head? ≠ some '+' := by
      intro h
      rw [hhd] at h
      exact absurd (Option.some.inj h) (by decide)
    rw [if_neg hplus]
    rw [if_pos hhd, List.tail_cons]
    have hdvd2 : (-q).den ∣ 10 ^ K := by
      rw [Rat.den_neg_eq_den]
      exact hdvd
    rw [parseUnsignedDec_ratAbsToChars (-q) (neg_nonneg.mpr (le_of_lt hneg)) hdvd2]
    simp
  · have hshape : ratToChars q = ratAbsToChars q := by
      rw [ratToChars, if_neg hneg]
    rw [hshape]
    have hhead : ∀ {c2 : Char}, (ratAbsToChars q).head? = some c2 →
        isDigitChar c2 = true ∨ c2 = '.' := by
      intro c2 h
      exact mem_ratAbsToChars (List.mem_of_mem_head? (Option.mem_def.mpr h))
    have hplus : (ratAbsToChars q).head? ≠ some '+' := by
      intro h
      rcases hhead h with h1 | h1 <;> revert h1 <;> decide
    have hminus : (ratAbsToChars q).head? ≠ some '-' := by
      intro h
      rcases hhead h with h1 | h1 <;> revert h1 <;> decide
    rw [if_neg hplus, if_neg hminus]
    exact parseUnsignedDec_ratAbsToChars q (not_lt.mp hneg) hdvd

/-- Claim C8 (amended): item keys carry the meta component, so two items
that differ only in meta always have distinct keys; fluid keys omit meta
entirely, so two fluids that differ only in meta share one key. -/
theorem getTargetKey_meta_distinct (id : JStr) (m1 m2 : ℚ)
    (h1 : ∃ k : Nat, m1.den ∣ 10 ^ k) (h2 : ∃ k : Nat, m2.den ∣ 10 ^ k)
    (hne : m1 ≠ m2) :
    getTargetKey { type := TKind.item, id := id, meta := m1 } ≠
      getTargetKey { type := TKind.item, id := id, meta := m2 } ∧
    getTargetKey { type := TKind.fluid, id := id, meta := m1 } =
      getTargetKey { type := TKind.fluid, id := id, meta := m2 } := by
  obtain ⟨k1, hk1⟩ := h1
  obtain ⟨k2, hk2⟩ := h2
  constructor
  · intro he
    apply hne
    have heq1 : itemTag ++ (id ++ ':' :: ratToChars m1) =
        itemTag ++ (id ++ ':' :: ratToChars m2) := he
    have heq2 := List.append_cancel_left heq1
    have heq3 := List.append_cancel_left heq2
    have heq4 : ratToChars m1 = ratToChars m2 := List.cons.inj heq3 |>.2
    have heq5 := congrArg parseJsNumber heq4
    rw [parseJsNumber_ratToChars m1 hk1, parseJsNumber_ratToChars m2 hk2] at heq5
    exact Option.some.inj heq5
  · rfl

/-- Witness for `getTargetKey_meta_distinct` at metas 0 and 1. -/
theorem getTargetKey_meta_distinct_witness :
    (0 : ℚ) ≠ 1 ∧
    getTargetKey { type := TKind.item, id := "x".toList, meta := 0 } ≠
      getTargetKey { type := TKind.item, id := "x".toList, meta := 1 } :=
  ⟨by norm_num,
    (getTargetKey_meta_distinct "x".toList 0 1
      ⟨0, by rw [Rat.den_zero]; exact one_dvd _⟩
      ⟨0, by rw [Rat.den_one]; exact one_dvd _⟩ (by norm_num)).1⟩

/-- Counterexample to claim C8 as stated: the fluid key has no meta
component - the key of fluid water is `fluid:water`, not `fluid:water:0`
as the claimed `kind:id:meta` format dictates. -/
theorem getTargetKey_fluid_no_meta_counterexample :
    getTargetKey { type := TKind.fluid, id := "water".toList, meta := 0 } =
      "fluid:water".toList ∧
    getTargetKey { type := TKind.fluid, id := "water".toList, meta := 0 } ≠
      "fluid:water:0".toList := by
  constructor
  · rfl
  · decide

theorem foldl_min_eq_min_foldr (xs : List ℚ) :
    ∀ a : ℚ, a ≤ 1 → xs.foldl min a = min a (xs.foldr min 1) := by
  induction xs with
  | nil =>
    intro a ha
    simp [min_eq_left ha]
  | cons y ys ih =>
    intro a ha
    rw [List.foldl_cons, ih (min a y) (le_trans (min_le_left a y) ha),
      List.foldr_cons, min_assoc]

theorem inputAvailabilityByNode_le_one (g : Graph) (nid : String) :
    inputAvailabilityByNode g nid ≤ 1 := by
  unfold inputAvailabilityByNode
  cases g.nodes.find? fun n => n.id == nid && !(n.type == GNodeType.recipe) with
  | none => simp
  | some _ =>
    by_cases h1 : produceCountByNode g nid = 0
    · simp [h1]
    · by_cases h2 : demandByNode g nid ≤ 0 <;> simp [h1, h2]

theorem getOutputDemandRatio_le_one (g : Graph) (nid : String) {q : ℚ}
    (h : getOutputDemandRatio g nid = some q) : q ≤ 1 := by
  unfold getOutputDemandRatio at h
  by_cases h1 : demandCountByNode g nid = 0
  · simp [h1] at h
  · rw [if_neg h1] at h
    by_cases h2 : supplyByNode g nid ≤ 0
    · rw [if_pos h2] at h
      rw [← Option.some.inj h]
      norm_num
    · rw [if_neg h2] at h
      rw [← Option.some.inj h]
      exact min_le_left 1 _

theorem inputAvailabilityByNode_eq_specInputRatio (g : Graph) (nid : String) :
    inputAvailabilityByNode g nid = specInputRatio g nid := by
  unfold inputAvailabilityByNode specInputRatio
  cases hfind : g.nodes.find? fun n => n.id == nid && !(n.type == GNodeType.recipe) with
  | none => simp [hfind]
  | some w =>
    by_cases h1 : produceCountByNode g nid = 0
    · simp [hfind, h1]
    · by_cases h2 : demandByNode g nid ≤ 0
      · simp [hfind, h1, h2, not_lt.mpr h2]
      · have h2p : 0 < demandByNode g nid := not_le.mp h2
        simp [hfind, h1, h2, Nat.pos_of_ne_zero h1, h2p]

theorem getOutputDemandRatio_eq_specOutputRatio (g : Graph) (nid : String) :
    getOutputDemandRatio g nid = specOutputRatio g nid := by
  unfold getOutputDemandRatio specOutputRatio
  by_cases h1 : demandCountByNode g nid = 0
  · simp [h1]
  · by_cases h2 : supplyByNode g nid ≤ 0 <;>
      simp [h1, h2, Nat.pos_of_ne_zero h1]

/-- Claim C4 (amended): the source utilization of a recipe node equals the
following rule - 0 when machines_required is absent or nonpositive; else
the minimum, with default 1 when no ratio applies, over the input-edge
ratios supply/demand clamped to [0,1] (defaulting to 1 when the material
has no producer or no positive demand) and the output-edge ratios
demand_at_consumer / supply_at_node clamped to [0,1] (0 on nonpositive
supply, skipped when the target material has no consumer). -/
theorem nodeUtilization_eq_spec (g : Graph) (node : GraphNode) :
    nodeUtilization g node = specNodeUtilization g node := by
  unfold nodeUtilization specNodeUtilization
  cases node.machines_required with
  | none => rfl
  | some mr =>
    by_cases hmr : mr ≤ 0
    · simp [hmr, not_lt.mpr hmr]
    · have hmr2 : 0 < mr := not_le.mp hmr
      simp only [if_neg hmr, if_pos hmr2]
      have hin : (inputsByRecipe g node.id).map (fun e => inputAvailabilityByNode g e.source) =
          (inputsByRecipe g node.id).map (fun e => specInputRatio g e.source) :=
        List.map_congr_left fun e _ => inputAvailabilityByNode_eq_specInputRatio g e.source
      have hout : (outputsByRecipe g node.id).filterMap
            (fun e => getOutputDemandRatio g e.target) =
          (outputsByRecipe g node.id).filterMap (fun e => specOutputRatio g e.target) :=
        List.filterMap_congr fun e _ => getOutputDemandRatio_eq_specOutputRatio g e.target
      rw [hin, hout]
      set l := (inputsByRecipe g node.id).map (fun e => specInputRatio g e.source) ++
        (outputsByRecipe g node.id).filterMap (fun e => specOutputRatio g e.target) with hl
      have hle : ∀ x ∈ l, x ≤ 1 := by
        intro x hx
        rcases List.mem_append.mp hx with hx1 | hx2
        · obtain ⟨e, _, he⟩ := List.mem_map.mp hx1
          rw [← he, ← inputAvailabilityByNode_eq_specInputRatio]
          exact inputAvailabilityByNode_le_one g e.source
        · obtain ⟨e, _, he⟩ := List.mem_filterMap.mp hx2
          rw [← getOutputDemandRatio_eq_specOutputRatio] at he
          exact getOutputDemandRatio_le_one g e.target he
      cases hcase : l with
      | nil => simp [hcase]
      | cons x xs =>
        have hx1 : x ≤ 1 := hle x (by rw [hcase]; exact List.mem_cons_self x xs)
        show List.foldl min x xs = List.foldr min 1 (x :: xs)
        rw [List.foldr_cons, foldl_min_eq_min_foldr xs x hx1]

/-- Counterexample to claim C4 as stated: with supply 1.2/s and consumer
demand 1/s the source computes utilization 1/1.2 = 5/6 for the producer
(demand over supply, clamped), while the ratio the claim words demand
(supply at node over demand at consumer) is 1.2. -/
theorem nodeUtilization_counterexample :
    nodeUtilization cexGraph cexNodeR = 5 / 6 ∧
    claimNodeUtilization cexGraph cexNodeR = 6 / 5 ∧
    (5 / 6 : ℚ) ≠ 6 / 5 := by
  refine ⟨?_, ?_, by norm_num⟩
  · show nodeUtilization cexGraph cexNodeR = 5 / 6
    simp +decide only [nodeUtilization, cexNodeR, cexNodeM, cexNodeC, cexGraph,
      inputsByRecipe, outputsByRecipe, getOutputDemandRatio, demandByNode, supplyByNode,
      demandCountByNode, produceCountByNode, List.filter, List.filterMap, List.map,
      List.sum_cons, List.sum_nil, List.length_cons, List.length_nil]
    norm_num
  · show claimNodeUtilization cexGraph cexNodeR = 6 / 5
    simp +decide only [claimNodeUtilization, cexNodeR, cexNodeM, cexNodeC, cexGraph,
      inputsByRecipe, outputsByRecipe, demandByNode, supplyByNode, List.filter,
      List.filterMap, List.map, List.sum_cons, List.sum_nil]
    norm_num

/-- Claim C10 (amended): every request built by `runGraph` has
machine-count overrides that never use the output key or an empty key and
whose values are whole numbers at least 0; the override map is empty
outside machines mode; any target_machine_count sent is at least 1; and
`recipe_override` maps the output key to the selected recipe rid whenever
the input recipe overrides hold no entry for the output key (such an entry
would win by spread order). -/
theorem runGraphPayload_invariants (s : AppState) (req : GraphRequest)
    (hreq : runGraphPayload s = some req) :
    (∀ kv ∈ req.machine_count_overrides,
        some kv.1 ≠ s.outputTarget.map getTargetKey ∧ kv.1 ≠ [] ∧ 0 ≤ kv.2) ∧
    (s.rateMode ≠ RateMode.machines → req.machine_count_overrides = []) ∧
    (∀ t ∈ req.targets, ∀ c, t.target_machine_count = some c → 1 ≤ c) ∧
    (∀ out rec, s.outputTarget = some out → s.selectedRecipe = some rec →
      s.inputRecipeOverrides.lookup (getTargetKey out) = none →
      req.recipe_override.lookup (getTargetKey out) = some rec.rid) := by
  cases ho : s.outputTarget with
  | none => rw [runGraphPayload, ho] at hreq; cases s.selectedRecipe <;> cases hreq
  | some outTarget =>
    cases hr : s.selectedRecipe with
    | none => rw [runGraphPayload, ho, hr] at hreq; cases hreq
    | some recipe =>
      rw [runGraphPayload, ho, hr] at hreq
      simp only [] at hreq
      rw [← Option.some.inj hreq]
      refine ⟨?_, ?_, ?_, ?_⟩
      · intro kv hkv
        simp only [ho, Option.map_some] at *
        by_cases hmode : s.rateMode = RateMode.machines
        · rw [if_pos hmode] at hkv
          obtain ⟨orig, _, hout⟩ := List.mem_filterMap.mp hkv
          by_cases hcond : orig.1 = [] ∨ orig.1 = getTargetKey outTarget
          · rw [if_pos hcond] at hout; cases hout
          · rw [if_neg hcond] at hout
            push_neg at hcond
            rw [← Option.some.inj hout]
            refine ⟨by simpa using hcond.2, hcond.1, le_max_left 0 _⟩
        · rw [if_neg hmode] at hkv
          cases hkv
      · intro hmode
        simp only [if_neg hmode]
      · intro t ht c hc
        rcases List.mem_cons.mp ht with h1 | h2
        · rw [h1] at hc
          simp only [] at hc
          by_cases hmode : s.rateMode = RateMode.machines
          · rw [if_pos hmode] at hc
            rw [← Option.some.inj hc]
            exact le_max_left 1 _
          · rw [if_neg hmode] at hc
            cases hc
        · obtain ⟨e, _, he⟩ := List.mem_map.mp h2
          rw [← he] at hc
          cases hc
      · intro out rec hout hrec hnone
        have h1 : outTarget = out := Option.some.inj hout
        have h2 : recipe = rec := Option.some.inj hrec
        subst h1
        subst h2
        show List.lookup (getTargetKey outTarget)
          (jsSpreadInsert (getTargetKey outTarget, recipe.rid) s.inputRecipeOverrides) =
            some recipe.rid
        rw [jsSpreadInsert]
        rw [if_neg (by rw [hnone]; simp)]
        simp [List.lookup]

/-- Counterexample to claim C10 as stated: with an input recipe override
registered under the output key, the built request maps the output key to
that override rid, not to the selected recipe rid, because the object
spread in the source lets `inputRecipeOverrides` win. -/
theorem runGraphPayload_override_shadowed_counterexample :
    (runGraphPayload cexState).map
        (fun req => req.recipe_override.lookup (getTargetKey scenarioTarget)) =
      some (some "r2") ∧
    ("r2" : String) ≠ scenarioRecipe.rid := by
  constructor
  · rw [show runGraphPayload cexState =
      runGraphPayload cexState from rfl]
    simp only [runGraphPayload, cexState, jsSpreadInsert]
    simp [List.lookup]
  · show ("r2" : String) ≠ "scenario-a"
    decide

/-- Witness for `runGraphPayload_invariants` at a concrete state. -/
theorem runGraphPayload_invariants_witness :
    runGraphPayload witState = some witReq ∧
    witReq.recipe_override.lookup (getTargetKey scenarioTarget) =
      some scenarioRecipe.rid := by
  have hreq : runGraphPayload witState = some witReq := by
    simp only [runGraphPayload, witState, jsSpreadInsert, witReq, scenarioTarget,
      scenarioRecipe, getRatePerS, clampWholeNumber, List.filterMap_nil,
      List.filter_nil, List.map_nil, List.lookup]
    norm_num
    intro hcontr
    exact absurd hcontr (by decide)
  refine ⟨hreq, ?_⟩
  exact (runGraphPayload_invariants witState witReq hreq).2.2.2 scenarioTarget
    scenarioRecipe rfl rfl rfl

end GTNHCalc
